import Mathlib

/-!
Verification of the gratitude-app scheduling worker
(`worker/src/index.js`, `worker/src/scheduler.js`).

The development shallowly embeds the worker's scheduling subsystem:

* the key-value store is modelled as association lists from keys to stored
  values, where a stored value is either a well-formed record or a `corrupt`
  blob (modelling a payload on which `JSON.parse` throws);
* the ambient runtime (random source, `Intl` timezone database, current
  date, push-service responses) is modelled as an explicit `Env` of oracle
  functions, so every theorem quantifies over all possible behaviours of
  these collaborators;
* JavaScript exceptions are modelled with `Except` (for thrown errors that
  ripple upwards) or with an explicit error component in the result (for the
  dispatch loop, where we must observe how far the loop got before a throw);
* machine numbers are modelled as `Nat`/`Int`; all arithmetic in the source
  is on small exact integers, so no overflow modelling is needed.

Section headers name the JavaScript function each definition embeds.
-/

namespace GratitudeWorker

/-! ### Association-list store primitives

The Cloudflare KV namespace is modelled per key family as an association
list.  `alookup` models `get`, `aset` models `put` (replace or append) and
`aerase` models `delete`. -/

def alookup {α β : Type} [DecidableEq α] : List (α × β) → α → Option β
  | [], _ => none
  | (k, v) :: rest, a => if k = a then some v else alookup rest a

def aset {α β : Type} [DecidableEq α] : List (α × β) → α → β → List (α × β)
  | [], a, b => [(a, b)]
  | (k, v) :: rest, a, b => if k = a then (a, b) :: rest else (k, v) :: aset rest a b

def aerase {α β : Type} [DecidableEq α] : List (α × β) → α → List (α × β)
  | [], _ => []
  | (k, v) :: rest, a => if k = a then aerase rest a else (k, v) :: aerase rest a

theorem alookup_aset_self {α β : Type} [DecidableEq α] (l : List (α × β)) (a : α) (b : β) :
    alookup (aset l a b) a = some b := by
  induction l with
  | nil => simp [aset, alookup]
  | cons hd tl ih =>
    obtain ⟨k, v⟩ := hd
    by_cases h : k = a
    · simp [aset, h, alookup]
    · simp [aset, h, alookup, ih]

theorem alookup_aset_ne {α β : Type} [DecidableEq α] (l : List (α × β)) (a a' : α) (b : β)
    (h : a' ≠ a) : alookup (aset l a b) a' = alookup l a' := by
  have h' : a ≠ a' := Ne.symm h
  induction l with
  | nil => simp [aset, alookup, h']
  | cons hd tl ih =>
    obtain ⟨k, v⟩ := hd
    by_cases hk : k = a
    · subst hk
      simp [aset, alookup, h']
    · by_cases hk' : k = a'
      · subst hk'
        simp [aset, hk, alookup]
      · simp [aset, hk, alookup, hk', ih]

theorem alookup_aerase {α β : Type} [DecidableEq α] (l : List (α × β)) (a a' : α)
    (h : a' ≠ a) : alookup (aerase l a) a' = alookup l a' := by
  have h' : a ≠ a' := Ne.symm h
  induction l with
  | nil => simp [aerase]
  | cons hd tl ih =>
    obtain ⟨k, v⟩ := hd
    by_cases hk : k = a
    · subst hk
      simp [aerase, alookup, h', ih]
    · by_cases hk' : k = a'
      · subst hk'
        simp [aerase, hk, alookup]
      · simp [aerase, hk, alookup, hk', ih]

theorem alookup_aerase_self {α β : Type} [DecidableEq α] (l : List (α × β)) (a : α) :
    alookup (aerase l a) a = none := by
  induction l with
  | nil => simp [aerase, alookup]
  | cons hd tl ih =>
    obtain ⟨k, v⟩ := hd
    by_cases hk : k = a
    · subst hk
      simp [aerase, ih]
    · simp [aerase, hk, alookup, ih]

/-! ### Character-list splitting

Models JavaScript `String.prototype.split` with a single-character
separator (used as `utcKey.split('T')`, `time.split(':')` and for checking
the dot-joined JWT shape). -/

def splitOnCharAux (c : Char) : List Char → List Char → List (List Char)
  | [], acc => [acc.reverse]
  | x :: xs, acc =>
    if x = c then acc.reverse :: splitOnCharAux c xs []
    else splitOnCharAux c xs (x :: acc)

def splitOnChar (c : Char) (l : List Char) : List (List Char) :=
  splitOnCharAux c l []

theorem splitOnCharAux_no_sep (c : Char) (l acc : List Char) (h : c ∉ l) :
    splitOnCharAux c l acc = [acc.reverse ++ l] := by
  induction l generalizing acc with
  | nil => simp [splitOnCharAux]
  | cons x xs ih =>
    simp only [List.mem_cons, not_or] at h
    have hx : x ≠ c := Ne.symm h.1
    simp only [splitOnCharAux, if_neg hx]
    rw [ih _ h.2]
    simp

theorem splitOnCharAux_sep (c : Char) (l r acc : List Char) (h : c ∉ l) :
    splitOnCharAux c (l ++ c :: r) acc = (acc.reverse ++ l) :: splitOnCharAux c r [] := by
  induction l generalizing acc with
  | nil => simp [splitOnCharAux]
  | cons x xs ih =>
    simp only [List.mem_cons, not_or] at h
    have hx : x ≠ c := Ne.symm h.1
    simp only [List.cons_append, splitOnCharAux, if_neg hx, List.append_eq]
    rw [ih _ h.2]
    simp

theorem splitOnChar_two (c : Char) (a b : List Char) (ha : c ∉ a) (hb : c ∉ b) :
    splitOnChar c (a ++ c :: b) = [a, b] := by
  unfold splitOnChar
  rw [splitOnCharAux_sep c a b [] ha, splitOnCharAux_no_sep c b [] hb]
  simp

theorem splitOnChar_three (c : Char) (a b d : List Char)
    (ha : c ∉ a) (hb : c ∉ b) (hd : c ∉ d) :
    splitOnChar c (a ++ c :: (b ++ c :: d)) = [a, b, d] := by
  unfold splitOnChar
  rw [splitOnCharAux_sep c a _ [] ha, splitOnCharAux_sep c b _ [] hb,
    splitOnCharAux_no_sep c d [] hd]
  simp

/-! ### HH:MM times (`scheduler.js` / `generateRandomTimes`)

`formatHHMM` embeds
`hour.toString().padStart(2, '0') + ':' + minute.toString().padStart(2, '0')`
for `hour < 100`, where both digits are always emitted (`padStart` supplies
the leading zero exactly when `hour < 10`, which coincides with
`digitChar (h / 10) = '0'`).  `parseHHMM` embeds
`s.split(':').map(Number)` destructured into two components, on the domain
of well-formed numeric fields (the claims only quantify over valid HH:MM
inputs, so the `NaN` propagation of `Number` on junk is outside the
modelled domain and is mapped to a `badTimeFormat` error). -/

def charDigitVal (c : Char) : Nat := c.toNat - 48

def natOfDigits (l : List Char) : Nat :=
  l.foldl (fun acc c => acc * 10 + charDigitVal c) 0

def parseHHMM (s : String) : Option (Nat × Nat) :=
  match splitOnChar ':' s.data with
  | [hcs, mcs] =>
    if hcs ≠ [] ∧ mcs ≠ [] ∧ hcs.all Char.isDigit ∧ mcs.all Char.isDigit then
      some (natOfDigits hcs, natOfDigits mcs)
    else none
  | _ => none

def formatHHMM (m : Nat) : String :=
  String.mk [Nat.digitChar (m / 60 / 10), Nat.digitChar (m / 60 % 10), ':',
    Nat.digitChar (m % 60 / 10), Nat.digitChar (m % 60 % 10)]

theorem data_mk (l : List Char) : (String.mk l).data = l := rfl

/-- JavaScript's default `Array.prototype.sort` comparator: lexicographic
comparison of the UTF-16 code units.  All characters appearing in the
schedule strings are ASCII, where Lean's `Char` ordering agrees with the
UTF-16 code-unit ordering. -/
def charListLe : List Char → List Char → Bool
  | [], _ => true
  | _ :: _, [] => false
  | a :: as, b :: bs => if a = b then charListLe as bs else decide (a < b)

def strLe (s t : String) : Bool := charListLe s.data t.data

def strLeP (a b : String) : Prop := strLe a b = true

instance : DecidableRel strLeP := fun a b => by unfold strLeP; infer_instance

/-- `times.sort()`: a comparison sort returning the (unique, since `strLe`
is a total order and equal keys are equal strings) non-decreasing
rearrangement; modelled by insertion sort. -/
def sortStrings (l : List String) : List String := l.insertionSort strLeP

def sortNats (l : List Nat) : List Nat := l.insertionSort (· ≤ ·)

theorem digitChar_lt_iff :
    ∀ a < 10, ∀ b < 10, (Nat.digitChar a < Nat.digitChar b ↔ a < b) := by decide

theorem digitChar_eq_iff :
    ∀ a < 10, ∀ b < 10, (Nat.digitChar a = Nat.digitChar b ↔ a = b) := by decide

theorem strLe_formatHHMM (m1 m2 : Nat) (h1 : m1 < 1440) (h2 : m2 < 1440) :
    strLe (formatHHMM m1) (formatHHMM m2) = decide (m1 ≤ m2) := by
  simp only [formatHHMM, strLe, data_mk, charListLe]
  by_cases e1 : m1 / 60 / 10 = m2 / 60 / 10
  · rw [e1, if_pos rfl]
    by_cases e2 : m1 / 60 % 10 = m2 / 60 % 10
    · rw [e2, if_pos rfl, if_pos trivial]
      by_cases e3 : m1 % 60 / 10 = m2 % 60 / 10
      · rw [e3, if_pos rfl]
        by_cases e4 : m1 % 60 % 10 = m2 % 60 % 10
        · rw [e4, if_pos rfl]
          have hm : m1 = m2 := by omega
          subst hm
          simp
        · have hne : Nat.digitChar (m1 % 60 % 10) ≠ Nat.digitChar (m2 % 60 % 10) :=
            fun hc => e4 ((digitChar_eq_iff _ (by omega) _ (by omega)).mp hc)
          rw [if_neg hne]
          have hiff := digitChar_lt_iff (m1 % 60 % 10) (by omega) (m2 % 60 % 10) (by omega)
          simp only [hiff]
          rw [decide_eq_decide]
          omega
      · have hne : Nat.digitChar (m1 % 60 / 10) ≠ Nat.digitChar (m2 % 60 / 10) :=
          fun hc => e3 ((digitChar_eq_iff _ (by omega) _ (by omega)).mp hc)
        rw [if_neg hne]
        have hiff := digitChar_lt_iff (m1 % 60 / 10) (by omega) (m2 % 60 / 10) (by omega)
        simp only [hiff]
        rw [decide_eq_decide]
        omega
    · have hne : Nat.digitChar (m1 / 60 % 10) ≠ Nat.digitChar (m2 / 60 % 10) :=
        fun hc => e2 ((digitChar_eq_iff _ (by omega) _ (by omega)).mp hc)
      rw [if_neg hne]
      have hiff := digitChar_lt_iff (m1 / 60 % 10) (by omega) (m2 / 60 % 10) (by omega)
      simp only [hiff]
      rw [decide_eq_decide]
      omega
  · have hne : Nat.digitChar (m1 / 60 / 10) ≠ Nat.digitChar (m2 / 60 / 10) :=
      fun hc => e1 ((digitChar_eq_iff _ (by omega) _ (by omega)).mp hc)
    rw [if_neg hne]
    have hiff := digitChar_lt_iff (m1 / 60 / 10) (by omega) (m2 / 60 / 10) (by omega)
    simp only [hiff]
    rw [decide_eq_decide]
    omega

theorem orderedInsert_map_format (m : Nat) (ms : List Nat) (hm : m < 1440)
    (hms : ∀ x ∈ ms, x < 1440) :
    List.orderedInsert strLeP (formatHHMM m) (ms.map formatHHMM) =
      (List.orderedInsert (· ≤ ·) m ms).map formatHHMM := by
  induction ms with
  | nil => simp
  | cons y ys ih =>
    have hy : y < 1440 := hms y (by simp)
    have hys : ∀ x ∈ ys, x < 1440 := fun x hx => hms x (by simp [hx])
    simp only [List.map_cons, List.orderedInsert, strLeP, strLe_formatHHMM m y hm hy]
    by_cases hle : m ≤ y
    · simp [hle]
    · simp [hle, ih hys]

theorem sortStrings_map_format (ms : List Nat) (hms : ∀ x ∈ ms, x < 1440) :
    sortStrings (ms.map formatHHMM) = (sortNats ms).map formatHHMM := by
  induction ms with
  | nil => rfl
  | cons y ys ih =>
    have hy : y < 1440 := hms y (by simp)
    have hys : ∀ x ∈ ys, x < 1440 := fun x hx => hms x (by simp [hx])
    have hys' : ∀ x ∈ sortNats ys, x < 1440 := fun x hx =>
      hys x ((List.perm_insertionSort (· ≤ ·) ys).mem_iff.mp hx)
    simp only [List.map_cons, sortStrings, sortNats, List.insertionSort] at *
    rw [ih hys, orderedInsert_map_format y _ hy hys']

/-! ### `generateRandomTimes` (`scheduler.js` lines 13-39)

The random source is the oracle `rand : Nat → Nat`: the i-th draw
`Math.floor(Math.random() * windowMinutes)` is modelled as
`rand i % windowMinutes`, which ranges over exactly the values the
JavaScript expression can produce; quantifying over `rand` quantifies over
every possible sequence of draws. -/

inductive SchedErr
  | invalidWindow
  | badTimeFormat
deriving DecidableEq

/-- The minute values collected by the generation loop: the i-th iteration
pushes `startMinutes + Math.floor(Math.random() * windowMinutes)`. -/
def randomDraws (rand : Nat → Nat) (n startM endM : Nat) : List Nat :=
  (List.range n).map fun i => startM + rand i % (endM - startM)

def generateRandomTimes (rand : Nat → Nat) (n : Nat) (startTime endTime _date : String) :
    Except SchedErr (List String) :=
  match parseHHMM startTime, parseHHMM endTime with
  | some (sh, sm), some (eh, em) =>
    let startMinutes := sh * 60 + sm
    let endMinutes := eh * 60 + em
    if endMinutes ≤ startMinutes then .error .invalidWindow
    else
      let times := (randomDraws rand n startMinutes endMinutes).map formatHHMM
      .ok (sortStrings times)
  | _, _ => .error .badTimeFormat

theorem mem_randomDraws_bound (rand : Nat → Nat) (n startM endM : Nat) (h : startM < endM)
    (x : Nat) (hx : x ∈ randomDraws rand n startM endM) : startM ≤ x ∧ x < endM := by
  simp only [randomDraws, List.mem_map, List.mem_range] at hx
  obtain ⟨i, _, rfl⟩ := hx
  have := Nat.mod_lt (rand i) (y := endM - startM) (by omega)
  omega

/-- **C4** (Randomizer postcondition): for every random source, every
`n ≥ 1`, and every valid HH:MM pair with the start strictly before the end
in minutes-since-midnight, `generateRandomTimes` succeeds and returns
exactly `n` zero-padded HH:MM strings (the renderings of a list of minute
values), each minute lying in the half-open window `[start, end)`, sorted
non-decreasingly — regardless of the values drawn from the random
source. -/
theorem generateRandomTimes_postcondition
    (rand : Nat → Nat) (n : Nat) (startTime endTime date : String) (sh sm eh em : Nat)
    (hs : parseHHMM startTime = some (sh, sm)) (he : parseHHMM endTime = some (eh, em))
    (hn : 1 ≤ n) (hlt : sh * 60 + sm < eh * 60 + em) (heh : eh < 24) (hem : em < 60) :
    generateRandomTimes rand n startTime endTime date =
      .ok ((sortNats (randomDraws rand n (sh * 60 + sm) (eh * 60 + em))).map formatHHMM) ∧
    (sortNats (randomDraws rand n (sh * 60 + sm) (eh * 60 + em))).length = n ∧
    (∀ m ∈ sortNats (randomDraws rand n (sh * 60 + sm) (eh * 60 + em)),
      sh * 60 + sm ≤ m ∧ m < eh * 60 + em) ∧
    (sortNats (randomDraws rand n (sh * 60 + sm) (eh * 60 + em))).Sorted (· ≤ ·) := by
  have hmem : ∀ x ∈ sortNats (randomDraws rand n (sh * 60 + sm) (eh * 60 + em)),
      sh * 60 + sm ≤ x ∧ x < eh * 60 + em := by
    intro x hx
    exact mem_randomDraws_bound rand n _ _ hlt x
      ((List.perm_insertionSort (· ≤ ·) _).mem_iff.mp hx)
  refine ⟨?_, ?_, hmem, List.sorted_insertionSort (· ≤ ·) _⟩
  · unfold generateRandomTimes
    rw [hs, he]
    dsimp only
    rw [if_neg (not_le.mpr hlt)]
    congr 1
    refine sortStrings_map_format _ ?_
    intro x hx
    have := mem_randomDraws_bound rand n _ _ hlt x hx
    omega
  · unfold sortNats
    rw [(List.perm_insertionSort (· ≤ ·) _).length_eq]
    simp [randomDraws]

/-- Witness for C4 at the spec scenario `generateRandomTimes(3, "09:00",
"21:00", "2025-01-01")` with the random oracle drawing `0, 1, 2`. -/
theorem generateRandomTimes_postcondition_witness :
    generateRandomTimes (fun i => i) 3 "09:00" "21:00" "2025-01-01" =
      .ok ((sortNats (randomDraws (fun i => i) 3 (9 * 60 + 0) (21 * 60 + 0))).map formatHHMM) ∧
    (sortNats (randomDraws (fun i => i) 3 (9 * 60 + 0) (21 * 60 + 0))).length = 3 ∧
    (∀ m ∈ sortNats (randomDraws (fun i => i) 3 (9 * 60 + 0) (21 * 60 + 0)),
      9 * 60 + 0 ≤ m ∧ m < 21 * 60 + 0) ∧
    (sortNats (randomDraws (fun i => i) 3 (9 * 60 + 0) (21 * 60 + 0))).Sorted (· ≤ ·) :=
  generateRandomTimes_postcondition (fun i => i) 3 "09:00" "21:00" "2025-01-01" 9 0 21 0
    (by decide) (by decide) (by decide) (by decide) (by decide) (by decide)

/-- **C5** (Window validation raises-iff): for every random source, every
`n` and every pair of HH:MM inputs, `generateRandomTimes` fails with the
`InvalidWindow` error if and only if the end is not strictly after the
start in minutes-since-midnight, and it succeeds otherwise; in the failure
case the result carries no schedule at all. -/
theorem generateRandomTimes_invalidWindow_iff
    (rand : Nat → Nat) (n : Nat) (startTime endTime date : String) (sh sm eh em : Nat)
    (hs : parseHHMM startTime = some (sh, sm)) (he : parseHHMM endTime = some (eh, em)) :
    (generateRandomTimes rand n startTime endTime date = .error .invalidWindow ↔
      eh * 60 + em ≤ sh * 60 + sm) ∧
    ((∃ ts, generateRandomTimes rand n startTime endTime date = .ok ts) ↔
      sh * 60 + sm < eh * 60 + em) := by
  unfold generateRandomTimes
  rw [hs, he]
  dsimp only
  by_cases hle : eh * 60 + em ≤ sh * 60 + sm
  · rw [if_pos hle]
    refine ⟨⟨fun _ => hle, fun _ => rfl⟩, ⟨fun hex => ?_, fun hlt => absurd hle (by omega)⟩⟩
    obtain ⟨ts, hts⟩ := hex
    exact absurd hts (by simp)
  · rw [if_neg hle]
    refine ⟨⟨fun hh => absurd hh (by simp), fun hh => absurd hh hle⟩,
      ⟨fun _ => by omega, fun _ => ⟨_, rfl⟩⟩⟩

/-- Witness for C5: an inverted window `("09:00", "08:30")` fails with
`InvalidWindow`. -/
theorem generateRandomTimes_invalidWindow_iff_witness :
    generateRandomTimes (fun i => i) 2 "09:00" "08:30" "2025-01-01" =
      .error .invalidWindow :=
  (generateRandomTimes_invalidWindow_iff (fun i => i) 2 "09:00" "08:30" "2025-01-01" 9 0 8 30
    (by decide) (by decide)).1.mpr (by decide)

/-! ### Timezone conversion (`scheduler.js` `toUtcDateTimeParts`, lines 85-106)

Instants are modelled in minutes since an epoch (`Int`); a wall-clock point
is a pair `(day, minuteOfDay)` with `0 ≤ minuteOfDay < 1440`, matching the
`YYYY-MM-DD` / `HH:MM` renderings of the source (every JavaScript value
involved is minute-aligned: `Date.UTC(y, m-1, d, h, min, 0)` and
`offset * 60 * 1000` are whole minutes, and `toISOString().slice` reads the
day and the minute of day back off).  The IANA database consulted through
`Intl` (`getTimeZoneOffsetMinutes`, lines 114-139) is modelled as the
oracle `Zone.offset`: the zone's UTC offset in minutes as a function of the
UTC instant. -/

structure Zone where
  offset : Int → Int

def partsToMin (day minuteOfDay : Int) : Int := day * 1440 + minuteOfDay

def minToParts (x : Int) : Int × Int := (x / 1440, x % 1440)

/-- The instant computed by `toUtcDateTimeParts`: interpret the local
wall-clock fields as UTC to get a first estimate, subtract the offset at
the estimate, and redo the subtraction once if the offset at the candidate
differs (the two-pass DST fixed point). -/
def toUtcInstant (z : Zone) (localAsUtc : Int) : Int :=
  let offset1 := z.offset localAsUtc
  let utcMs := localAsUtc - offset1
  let offset2 := z.offset utcMs
  if offset2 = offset1 then utcMs else localAsUtc - offset2

def toUtcDateTimeParts (z : Zone) (day minuteOfDay : Int) : Int × Int :=
  minToParts (toUtcInstant z (partsToMin day minuteOfDay))

/-- **C6** (Timezone round trip): for every local `(day, minuteOfDay)` and
every zone whose UTC offset is constant over the interval between the
local point (read as a UTC instant) and its UTC image, the conversion
settles on `local - offset` in one pass, and adding the zone's offset at
that UTC instant back reproduces the original local day and minute. -/
theorem toUtc_roundtrip (z : Zone) (day t : Int) (ht0 : 0 ≤ t) (ht1 : t < 1440)
    (hconst : ∀ x : Int,
      min (partsToMin day t) (partsToMin day t - z.offset (partsToMin day t)) ≤ x →
      x ≤ max (partsToMin day t) (partsToMin day t - z.offset (partsToMin day t)) →
      z.offset x = z.offset (partsToMin day t)) :
    toUtcInstant z (partsToMin day t) = partsToMin day t - z.offset (partsToMin day t) ∧
    minToParts (partsToMin (toUtcDateTimeParts z day t).1 (toUtcDateTimeParts z day t).2 +
        z.offset (partsToMin (toUtcDateTimeParts z day t).1 (toUtcDateTimeParts z day t).2)) =
      (day, t) := by
  have hu0 : z.offset (partsToMin day t - z.offset (partsToMin day t)) =
      z.offset (partsToMin day t) :=
    hconst _ (min_le_right _ _) (le_max_right _ _)
  have h1 : toUtcInstant z (partsToMin day t) =
      partsToMin day t - z.offset (partsToMin day t) := by
    unfold toUtcInstant
    simp [hu0]
  refine ⟨h1, ?_⟩
  rw [toUtcDateTimeParts, h1]
  have hmp : partsToMin (minToParts (partsToMin day t - z.offset (partsToMin day t))).1
      (minToParts (partsToMin day t - z.offset (partsToMin day t))).2 =
      partsToMin day t - z.offset (partsToMin day t) := by
    unfold partsToMin minToParts
    dsimp only
    omega
  rw [hmp, hu0]
  have hback : partsToMin day t - z.offset (partsToMin day t) + z.offset (partsToMin day t) =
      partsToMin day t := by omega
  rw [hback]
  unfold minToParts partsToMin
  simp only [Prod.mk.injEq]
  exact ⟨by omega, by omega⟩

/-- Witness for C6: a fixed-offset zone at UTC-4 (no transition anywhere),
local day 20240 at minute 870 (14:30). -/
theorem toUtc_roundtrip_witness :
    toUtcInstant ⟨fun _ => -240⟩ (partsToMin 20240 870) =
      partsToMin 20240 870 - (⟨fun _ => -240⟩ : Zone).offset (partsToMin 20240 870) ∧
    minToParts (partsToMin (toUtcDateTimeParts ⟨fun _ => -240⟩ 20240 870).1
        (toUtcDateTimeParts ⟨fun _ => -240⟩ 20240 870).2 +
        (⟨fun _ => -240⟩ : Zone).offset (partsToMin (toUtcDateTimeParts ⟨fun _ => -240⟩ 20240 870).1
          (toUtcDateTimeParts ⟨fun _ => -240⟩ 20240 870).2)) = (20240, 870) :=
  toUtc_roundtrip ⟨fun _ => -240⟩ 20240 870 (by decide) (by decide) (fun _ _ _ => rfl)

/-! ### Worker data model (`worker/src/index.js`)

Stored values distinguish a well-formed parsed record from a `corrupt`
payload (one on which `JSON.parse` throws).  A field the code guards with
`Array.isArray` is an `Option (List String)` (`none` models a missing or
non-array field); the `!schedule.timezone` falsiness guard is modelled by
the empty string (an absent field and `""` are indistinguishable in every
use the code makes of the field). -/

structure SchedRec where
  date : String
  timezone : String
  remindersPerDay : Nat
  startTime : String
  endTime : String
  times : List String
  utcTimes : Option (List String)
  sentUtc : Option (List String)
deriving DecidableEq

inductive StoredSched
  | corrupt
  | parsed (s : SchedRec)
deriving DecidableEq

inductive StoredBucket
  | corrupt
  | members (l : List String)
deriving DecidableEq

structure Settings where
  enabled : Bool
  remindersPerDay : Nat
  startTime : String
  endTime : String
  timezone : String
deriving DecidableEq

inductive StoredSettings
  | corrupt
  | val (s : Settings)
deriving DecidableEq

/-- A push subscription, modelled by its endpoint. -/
inductive StoredSub
  | corrupt
  | endpoint (e : String)
deriving DecidableEq

/-- The KV namespace, split by key family:
`schedule:{userId}`, `user:{id}:subscription`, `bucket:{utcDate}:{utcTime}`
and `user:{id}:settings`. -/
structure KV where
  schedules : List (String × StoredSched)
  subs : List (String × StoredSub)
  buckets : List ((String × String) × StoredBucket)
  settings : List (String × StoredSettings)
deriving DecidableEq

/-- Runtime oracles: the random source, `getDateInTimezone`, the UTC
date/time renderings produced by `toUtcDateTimeParts` (verified separately
in the instant model above), and the push service's response
classification per endpoint (`true` = 2xx). -/
structure Env where
  rand : Nat → Nat
  localDate : String → String
  toUtc : String → String → String → String × String
  pushOk : String → Bool

/-- `utcKey.split('T')` destructured into `[date, time]`, with the
`!date || !time` falsiness guard (lines 362-376). -/
def splitT (k : String) : Option (String × String) :=
  match splitOnChar 'T' k.data with
  | p0 :: p1 :: _ =>
    if p0 = [] ∨ p1 = [] then none else some (String.mk p0, String.mk p1)
  | _ => none

/-! ### Minute-bucket index (lines 362-423) -/

def bucketMembers (kv : KV) (d t : String) : List String :=
  match alookup kv.buckets (d, t) with
  | some (.members l) => l
  | _ => []

/-- `addUserToBucket` (lines 378-396): the read-and-parse of the current
bucket payload is exactly `bucketMembers` (a corrupt payload is treated as
an empty list); the put only happens when the user is not yet a member. -/
def addUserToBucket (userId d t : String) (kv : KV) : KV :=
  let cur := bucketMembers kv d t
  if userId ∈ cur then kv
  else { kv with buckets := aset kv.buckets (d, t) (.members (cur ++ [userId])) }

/-- `removeUserFromBucket` (lines 398-419): absent and corrupt payloads are
left untouched; an emptied bucket is deleted outright. -/
def removeUserFromBucket (userId d t : String) (kv : KV) : KV :=
  match alookup kv.buckets (d, t) with
  | some (.members l) =>
    let filtered := l.filter (fun id => id ≠ userId)
    if filtered.isEmpty then { kv with buckets := aerase kv.buckets (d, t) }
    else { kv with buckets := aset kv.buckets (d, t) (.members filtered) }
  | _ => kv

def addUserToBuckets (userId : String) (utcTimes : List String) (kv : KV) : KV :=
  match utcTimes with
  | [] => kv
  | k :: rest =>
    match splitT k with
    | some (d, t) => addUserToBuckets userId rest (addUserToBucket userId d t kv)
    | none => addUserToBuckets userId rest kv

def removeUserFromBuckets (userId : String) (utcTimes : List String) (kv : KV) : KV :=
  match utcTimes with
  | [] => kv
  | k :: rest =>
    match splitT k with
    | some (d, t) => removeUserFromBuckets userId rest (removeUserFromBucket userId d t kv)
    | none => removeUserFromBuckets userId rest kv

/-! ### Schedule building (`buildScheduleForUser`, lines 330-360) -/

/-- `buildScheduleForUser`.  An `InvalidWindow` thrown by
`generateRandomTimes` propagates to the caller (there is no catch on this
path), modelled by `Except`.  Old bucket memberships are removed first
(when a previous schedule with an array `utcTimes` is supplied), then the
new record is put, then the new memberships are installed. -/
def buildScheduleForUser (env : Env) (userId : String) (settings : Settings) (kv : KV)
    (previousSchedule : Option SchedRec) : Except SchedErr (KV × SchedRec) :=
  let reminders := settings.remindersPerDay
  let date := env.localDate settings.timezone
  match generateRandomTimes env.rand reminders settings.startTime settings.endTime date with
  | .error e => .error e
  | .ok times =>
    let utcTimes := times.map fun tm =>
      let u := env.toUtc date tm settings.timezone
      u.1 ++ "T" ++ u.2
    let kv1 := match previousSchedule with
      | some prev =>
        match prev.utcTimes with
        | some puts => removeUserFromBuckets userId puts kv
        | none => kv
      | none => kv
    let sched : SchedRec :=
      { date := date, timezone := settings.timezone, remindersPerDay := reminders,
        startTime := settings.startTime, endTime := settings.endTime,
        times := times, utcTimes := some utcTimes, sentUtc := some [] }
    let kv2 := { kv1 with schedules := aset kv1.schedules userId (.parsed sched) }
    .ok (addUserToBuckets userId utcTimes kv2, sched)

/-! ### Dispatch engine (lines 206-270) -/

inductive PushErr
  | deliveryFailed
  | corruptSubscription
deriving DecidableEq

/-- `processUserForUtcTime` (lines 232-270).  The result is the store
after the call, the number of `sendPush` delivery attempts made (0 or 1),
and the JavaScript exception escaping the call, if any: `sendPush` throws
on a non-2xx response (line 492) and `JSON.parse` throws on a corrupt
subscription payload (line 261); neither is caught here.  When the push
succeeds, the current UTC key is appended to `sentUtc` and the schedule is
persisted. -/
def processUserForUtcTime (env : Env) (userId utcKey : String) (kv : KV) :
    KV × Nat × Option PushErr :=
  match alookup kv.schedules userId with
  | none => (kv, 0, none)
  | some .corrupt => (kv, 0, none)
  | some (.parsed s) =>
    match s.utcTimes with
    | none => (kv, 0, none)
    | some uts =>
      if utcKey ∈ uts then
        if utcKey ∈ s.sentUtc.getD [] then (kv, 0, none)
        else if s.timezone = "" then (kv, 0, none)
        else if s.date ≠ env.localDate s.timezone then (kv, 0, none)
        else
          match alookup kv.subs userId with
          | none => (kv, 0, none)
          | some .corrupt => (kv, 0, some .corruptSubscription)
          | some (.endpoint ep) =>
            if env.pushOk ep then
              let s' : SchedRec := { s with sentUtc := some (s.sentUtc.getD [] ++ [utcKey]) }
              ({ kv with schedules := aset kv.schedules userId (.parsed s') }, 1, none)
            else (kv, 1, some .deliveryFailed)
      else (kv, 0, none)

/-- The `for (const userId of userIds)` loop of `processMinuteBucket`
(lines 224-226): there is no try/catch, so the first exception thrown while
processing a user stops the loop and escapes. -/
def processUsersForUtcKey (env : Env) (utcKey : String) :
    List String → KV → KV × Nat × Option PushErr
  | [], kv => (kv, 0, none)
  | u :: rest, kv =>
    match processUserForUtcTime env u utcKey kv with
    | (kv', n, some e) => (kv', n, some e)
    | (kv', n, none) =>
      match processUsersForUtcKey env utcKey rest kv' with
      | (kv'', m, err) => (kv'', n + m, err)

/-- `processMinuteBucket` (lines 206-227), with the current UTC date and
time passed explicitly (`getCurrentUtcParts` reads the ambient clock).  A
missing, corrupt or empty bucket is a no-op. -/
def processMinuteBucket (env : Env) (utcDate utcTime : String) (kv : KV) :
    KV × Nat × Option PushErr :=
  match alookup kv.buckets (utcDate, utcTime) with
  | none => (kv, 0, none)
  | some .corrupt => (kv, 0, none)
  | some (.members userIds) =>
    processUsersForUtcKey env (utcDate ++ "T" ++ utcTime) userIds kv

/-! ### Refresh engine (`refreshSchedules`, lines 275-325) -/

/-- `settingsFromSchedule` (lines 433-446): the record is self-sufficient
when all four carried settings fields are truthy. -/
def settingsFromSchedule (s : SchedRec) : Option Settings :=
  if s.remindersPerDay = 0 ∨ s.startTime = "" ∨ s.endTime = "" ∨ s.timezone = "" then none
  else
    some { enabled := true, remindersPerDay := s.remindersPerDay,
           startTime := s.startTime, endTime := s.endTime, timezone := s.timezone }

/-- `getSettingsForUser` (lines 448-458): a corrupt settings payload is
caught and treated as absent. -/
def getSettingsForUser (kv : KV) (userId : String) : Option Settings :=
  match alookup kv.settings userId with
  | some (.val st) => some st
  | _ => none

/-- `settingsFromSchedule(schedule) || await getSettingsForUser(...)`
(line 313). -/
def effectiveSettings (kv : KV) (userId : String) (s : SchedRec) : Option Settings :=
  match settingsFromSchedule s with
  | some st => some st
  | none => getSettingsForUser kv userId

/-- The body of `refreshSchedules` (lines 296-319) for one current-shape
key `schedule:{userId}`: the hourly scan applies this step per listed
record (the legacy three-part keys follow the separate migration branch at
lines 283-292, outside the per-record claims).  Note the disabled/
unrecoverable branch (lines 314-317) deletes only the schedule record. -/
def refreshStepCurrent (env : Env) (userId : String) (kv : KV) : Except SchedErr KV :=
  match alookup kv.schedules userId with
  | none => .ok kv
  | some .corrupt => .ok kv
  | some (.parsed s) =>
    if s.timezone = "" then .ok kv
    else if s.date = env.localDate s.timezone then .ok kv
    else
      match effectiveSettings kv userId s with
      | none => .ok { kv with schedules := aerase kv.schedules userId }
      | some st =>
        if st.enabled then
          match buildScheduleForUser env userId st kv (some s) with
          | .ok (kv', _) => .ok kv'
          | .error e => .error e
        else .ok { kv with schedules := aerase kv.schedules userId }

/-! ### Bucket membership lemmas -/

theorem addUserToBucket_frame (u d t d' t' : String) (kv : KV) (h : (d', t') ≠ (d, t)) :
    bucketMembers (addUserToBucket u d t kv) d' t' = bucketMembers kv d' t' := by
  unfold addUserToBucket
  dsimp only
  by_cases hm : u ∈ bucketMembers kv d t
  · rw [if_pos hm]
  · rw [if_neg hm]
    unfold bucketMembers
    dsimp only
    rw [alookup_aset_ne _ _ _ _ h]

theorem mem_addUserToBucket_self (u d t : String) (kv : KV) :
    u ∈ bucketMembers (addUserToBucket u d t kv) d t := by
  unfold addUserToBucket
  dsimp only
  by_cases hm : u ∈ bucketMembers kv d t
  · rwa [if_pos hm]
  · rw [if_neg hm]
    unfold bucketMembers
    dsimp only
    rw [alookup_aset_self]
    simp

theorem addUserToBucket_superset (u d t d' t' : String) (kv : KV) (v : String)
    (hv : v ∈ bucketMembers kv d' t') :
    v ∈ bucketMembers (addUserToBucket u d t kv) d' t' := by
  by_cases h : (d', t') = (d, t)
  · rw [Prod.mk.injEq] at h
    obtain ⟨rfl, rfl⟩ := h
    unfold addUserToBucket
    dsimp only
    by_cases hm : u ∈ bucketMembers kv d' t'
    · rwa [if_pos hm]
    · rw [if_neg hm]
      unfold bucketMembers
      dsimp only
      rw [alookup_aset_self]
      dsimp only
      exact List.mem_append_left _ hv
  · rw [addUserToBucket_frame u d t d' t' kv h]
    exact hv

theorem removeUserFromBucket_frame (u d t d' t' : String) (kv : KV) (h : (d', t') ≠ (d, t)) :
    bucketMembers (removeUserFromBucket u d t kv) d' t' = bucketMembers kv d' t' := by
  unfold removeUserFromBucket
  cases hb : alookup kv.buckets (d, t) with
  | none => rfl
  | some sb =>
    cases sb with
    | corrupt => rfl
    | members l =>
      dsimp only
      by_cases he : (l.filter (fun id => id ≠ u)).isEmpty
      · rw [if_pos he]
        unfold bucketMembers
        dsimp only
        rw [alookup_aerase _ _ _ h]
      · rw [if_neg he]
        unfold bucketMembers
        dsimp only
        rw [alookup_aset_ne _ _ _ _ h]

theorem not_mem_removeUserFromBucket_self (u d t : String) (kv : KV) :
    u ∉ bucketMembers (removeUserFromBucket u d t kv) d t := by
  unfold removeUserFromBucket
  cases hb : alookup kv.buckets (d, t) with
  | none =>
    unfold bucketMembers
    rw [hb]
    simp
  | some sb =>
    cases sb with
    | corrupt =>
      unfold bucketMembers
      rw [hb]
      simp
    | members l =>
      dsimp only
      by_cases he : (l.filter (fun id => id ≠ u)).isEmpty
      · rw [if_pos he]
        unfold bucketMembers
        dsimp only
        rw [alookup_aerase_self]
        simp
      · rw [if_neg he]
        unfold bucketMembers
        dsimp only
        rw [alookup_aset_self]
        simp

theorem removeUserFromBucket_subset (u d t d' t' : String) (kv : KV) (v : String)
    (hv : v ∈ bucketMembers (removeUserFromBucket u d t kv) d' t') :
    v ∈ bucketMembers kv d' t' := by
  by_cases h : (d', t') = (d, t)
  · rw [Prod.mk.injEq] at h
    obtain ⟨rfl, rfl⟩ := h
    revert hv
    unfold removeUserFromBucket bucketMembers
    cases hb : alookup kv.buckets (d', t') with
    | none =>
      intro hv
      dsimp only at hv
      rw [hb] at hv
      simp at hv
    | some sb =>
      cases sb with
      | corrupt =>
        intro hv
        dsimp only at hv
        rw [hb] at hv
        simp at hv
      | members l =>
        dsimp only
        by_cases he : (l.filter (fun id => id ≠ u)).isEmpty
        · rw [if_pos he]
          dsimp only
          rw [alookup_aerase_self]
          intro hv
          exact absurd hv (List.not_mem_nil v)
        · rw [if_neg he]
          dsimp only
          rw [alookup_aset_self]
          intro hv
          exact List.mem_of_mem_filter hv
  · rw [removeUserFromBucket_frame u d t d' t' kv h] at hv
    exact hv

theorem addUserToBuckets_superset (u : String) (keys : List String) (kv : KV)
    (d t v : String) (hv : v ∈ bucketMembers kv d t) :
    v ∈ bucketMembers (addUserToBuckets u keys kv) d t := by
  induction keys generalizing kv with
  | nil => exact hv
  | cons k0 rest ih =>
    unfold addUserToBuckets
    cases hs0 : splitT k0 with
    | none => exact ih kv hv
    | some dt0 =>
      obtain ⟨d0, t0⟩ := dt0
      exact ih _ (addUserToBucket_superset u d0 t0 d t kv v hv)

theorem mem_addUserToBuckets (u k d t : String) (hs : splitT k = some (d, t)) :
    ∀ (keys : List String) (kv : KV), k ∈ keys →
      u ∈ bucketMembers (addUserToBuckets u keys kv) d t := by
  intro keys
  induction keys with
  | nil => intro kv hk; cases hk
  | cons k0 rest ih =>
    intro kv hk
    unfold addUserToBuckets
    rcases List.mem_cons.mp hk with rfl | hk'
    · rw [hs]
      dsimp only
      exact addUserToBuckets_superset u rest _ d t u (mem_addUserToBucket_self u d t kv)
    · cases hs0 : splitT k0 with
      | none => exact ih _ hk'
      | some dt0 =>
        obtain ⟨d0, t0⟩ := dt0
        exact ih _ hk'

theorem addUserToBuckets_frame (u : String) (keys : List String) (kv : KV) (d t : String)
    (h : ∀ k ∈ keys, splitT k ≠ some (d, t)) :
    bucketMembers (addUserToBuckets u keys kv) d t = bucketMembers kv d t := by
  induction keys generalizing kv with
  | nil => rfl
  | cons k0 rest ih =>
    unfold addUserToBuckets
    cases hs0 : splitT k0 with
    | none => exact ih kv (fun k hk => h k (List.mem_cons_of_mem _ hk))
    | some dt0 =>
      obtain ⟨d0, t0⟩ := dt0
      have hne : (d, t) ≠ (d0, t0) := by
        intro hc
        exact h k0 (List.mem_cons_self _ _) (by rw [hs0, hc])
      rw [ih _ (fun k hk => h k (List.mem_cons_of_mem _ hk)),
        addUserToBucket_frame u d0 t0 d t kv hne]

theorem removeUserFromBuckets_subset (u : String) (keys : List String) (kv : KV)
    (d t v : String) (hv : v ∈ bucketMembers (removeUserFromBuckets u keys kv) d t) :
    v ∈ bucketMembers kv d t := by
  induction keys generalizing kv with
  | nil => exact hv
  | cons k0 rest ih =>
    revert hv
    unfold removeUserFromBuckets
    cases hs0 : splitT k0 with
    | none =>
      intro hv
      exact ih kv hv
    | some dt0 =>
      obtain ⟨d0, t0⟩ := dt0
      intro hv
      exact removeUserFromBucket_subset u d0 t0 d t kv v (ih _ hv)

theorem not_mem_removeUserFromBuckets (u k d t : String) (hs : splitT k = some (d, t)) :
    ∀ (keys : List String) (kv : KV), k ∈ keys →
      u ∉ bucketMembers (removeUserFromBuckets u keys kv) d t := by
  intro keys
  induction keys with
  | nil => intro kv hk; cases hk
  | cons k0 rest ih =>
    intro kv hk
    rcases List.mem_cons.mp hk with rfl | hk'
    · unfold removeUserFromBuckets
      rw [hs]
      dsimp only
      intro hmem
      exact not_mem_removeUserFromBucket_self u d t kv
        (removeUserFromBuckets_subset u rest _ d t u hmem)
    · unfold removeUserFromBuckets
      cases hs0 : splitT k0 with
      | none => exact ih _ hk'
      | some dt0 =>
        obtain ⟨d0, t0⟩ := dt0
        exact ih _ hk'

theorem addUserToBucket_schedules (u d t : String) (kv : KV) :
    (addUserToBucket u d t kv).schedules = kv.schedules := by
  unfold addUserToBucket
  dsimp only
  by_cases hm : u ∈ bucketMembers kv d t
  · rw [if_pos hm]
  · rw [if_neg hm]

theorem addUserToBuckets_schedules (u : String) (keys : List String) (kv : KV) :
    (addUserToBuckets u keys kv).schedules = kv.schedules := by
  induction keys generalizing kv with
  | nil => rfl
  | cons k0 rest ih =>
    unfold addUserToBuckets
    cases hs0 : splitT k0 with
    | none => exact ih kv
    | some dt0 =>
      obtain ⟨d0, t0⟩ := dt0
      rw [ih _, addUserToBucket_schedules]

/-! ### Dispatch engine theorems -/

/-- The `sentUtc.includes(utcKey)` guard (line 249): a record that already
lists the key makes the invocation a no-op. -/
theorem processUser_sent_noop (env : Env) (u k : String) (kv : KV) (s : SchedRec)
    (hl : alookup kv.schedules u = some (.parsed s)) (hsent : k ∈ s.sentUtc.getD []) :
    processUserForUtcTime env u k kv = (kv, 0, none) := by
  unfold processUserForUtcTime
  rw [hl]
  dsimp only
  cases huts : s.utcTimes with
  | none => rfl
  | some uts =>
    dsimp only
    by_cases hk : k ∈ uts
    · rw [if_pos hk, if_pos hsent]
    · rw [if_neg hk]

/-- The store written by a successful dispatch for user `u` at key `k`
over record `s`: the record is persisted with `k` appended to `sentUtc`
(lines 265-267). -/
def markSent (kv : KV) (u k : String) (s : SchedRec) : KV :=
  let s' : SchedRec := { s with sentUtc := some (s.sentUtc.getD [] ++ [k]) }
  { kv with schedules := aset kv.schedules u (.parsed s') }

/-- **C1** (Dispatch idempotence): a record whose `sentUtc` already contains
the current UTC key is skipped — no delivery attempt, store unchanged; and
for a due record (key in `utcTimes`, not yet sent, live timezone and date,
subscription present, push accepted) the first invocation makes exactly one
delivery attempt and appends the key to `sentUtc`, after which the second
invocation for the same minute and state makes no further attempt and
leaves the store unchanged — exactly one attempt across the two. -/
theorem dispatch_idempotence :
    (∀ (env : Env) (u k : String) (kv : KV) (s : SchedRec),
      alookup kv.schedules u = some (.parsed s) → k ∈ s.sentUtc.getD [] →
      processUserForUtcTime env u k kv = (kv, 0, none)) ∧
    (∀ (env : Env) (u k : String) (kv : KV) (s : SchedRec) (uts : List String) (ep : String),
      alookup kv.schedules u = some (.parsed s) →
      s.utcTimes = some uts → k ∈ uts → k ∉ s.sentUtc.getD [] →
      ¬s.timezone = "" → s.date = env.localDate s.timezone →
      alookup kv.subs u = some (.endpoint ep) → env.pushOk ep = true →
      processUserForUtcTime env u k kv = (markSent kv u k s, 1, none) ∧
      processUserForUtcTime env u k (markSent kv u k s) = (markSent kv u k s, 0, none)) := by
  refine ⟨processUser_sent_noop, ?_⟩
  intro env u k kv s uts ep hl huts hk hnot htz hdate hsub hpush
  constructor
  · unfold processUserForUtcTime
    rw [hl]
    dsimp only
    rw [huts]
    dsimp only
    rw [if_pos hk, if_neg hnot, if_neg htz, if_neg (fun hc => hc hdate), hsub]
    dsimp only
    rw [if_pos hpush]
    unfold markSent
    dsimp only
    rw [huts]
  · apply processUser_sent_noop (s := { s with sentUtc := some (s.sentUtc.getD [] ++ [k]) })
    · exact alookup_aset_self _ _ _
    · simp

/-- **C10** (Missing or empty timezone freezes the record): a schedule
record whose `timezone` field is falsy is skipped by the dispatch engine
(no push attempt, no exception, store unchanged — line 251) and by the
refresh engine's per-record step (not deleted, not rebuilt, store
unchanged — line 308), so it persists unchanged. -/
theorem missing_timezone_skip :
    (∀ (env : Env) (u k : String) (kv : KV) (s : SchedRec),
      alookup kv.schedules u = some (.parsed s) → s.timezone = "" →
      processUserForUtcTime env u k kv = (kv, 0, none)) ∧
    (∀ (env : Env) (u : String) (kv : KV) (s : SchedRec),
      alookup kv.schedules u = some (.parsed s) → s.timezone = "" →
      refreshStepCurrent env u kv = .ok kv) := by
  constructor
  · intro env u k kv s hl htz
    unfold processUserForUtcTime
    rw [hl]
    dsimp only
    cases huts : s.utcTimes with
    | none => rfl
    | some uts =>
      dsimp only
      by_cases hk : k ∈ uts
      · rw [if_pos hk]
        by_cases hsent : k ∈ s.sentUtc.getD []
        · rw [if_pos hsent]
        · rw [if_neg hsent, if_pos htz]
      · rw [if_neg hk]
  · intro env u kv s hl htz
    unfold refreshStepCurrent
    rw [hl]
    dsimp only
    rw [if_pos htz]

/-- Either a dispatch invocation leaves the store untouched, or it went
through every guard and wrote the record back with the key appended. -/
theorem processUser_cases (env : Env) (u k : String) (kv : KV) :
    (processUserForUtcTime env u k kv).1 = kv ∨
    (∃ s, alookup kv.schedules u = some (.parsed s) ∧ k ∈ s.utcTimes.getD [] ∧
      k ∉ s.sentUtc.getD [] ∧
      (processUserForUtcTime env u k kv).1 = markSent kv u k s) := by
  unfold processUserForUtcTime
  cases hls : alookup kv.schedules u with
  | none => exact Or.inl rfl
  | some ss =>
    cases ss with
    | corrupt => exact Or.inl rfl
    | parsed s =>
      dsimp only
      cases huts : s.utcTimes with
      | none => exact Or.inl rfl
      | some uts =>
        dsimp only
        by_cases hk : k ∈ uts
        · rw [if_pos hk]
          by_cases hsent : k ∈ s.sentUtc.getD []
          · rw [if_pos hsent]
            exact Or.inl rfl
          · rw [if_neg hsent]
            by_cases htz : s.timezone = ""
            · rw [if_pos htz]
              exact Or.inl rfl
            · rw [if_neg htz]
              by_cases hd : s.date ≠ env.localDate s.timezone
              · rw [if_pos hd]
                exact Or.inl rfl
              · rw [if_neg hd]
                cases hsub : alookup kv.subs u with
                | none => exact Or.inl rfl
                | some sub =>
                  cases sub with
                  | corrupt => exact Or.inl rfl
                  | endpoint ep =>
                    dsimp only
                    by_cases hp : env.pushOk ep
                    · rw [if_pos hp]
                      refine Or.inr ⟨s, rfl, ?_, hsent, ?_⟩
                      · rw [huts]
                        exact hk
                      · unfold markSent
                        dsimp only
                        rw [huts]
                    · rw [if_neg hp]
                      exact Or.inl rfl
        · rw [if_neg hk]
          exact Or.inl rfl

/-! ### C2: failure isolation in the minute-bucket loop -/

/-- A record due at UTC key `2025-01-02T10:00`. -/
def schedDue : SchedRec :=
  { date := "2025-01-02", timezone := "UTC", remindersPerDay := 1,
    startTime := "09:00", endTime := "10:00", times := ["10:00"],
    utcTimes := some ["2025-01-02T10:00"], sentUtc := some [] }

/-- Two subscribed users, both due in the same minute bucket. -/
def kvTwoUsers : KV :=
  { schedules := [("u1", .parsed schedDue), ("u2", .parsed schedDue)],
    subs := [("u1", .endpoint "ep1"), ("u2", .endpoint "ep2")],
    buckets := [(("2025-01-02", "10:00"), .members ["u1", "u2"])],
    settings := [] }

/-- A runtime in which the push service rejects endpoint `ep1` (non-2xx)
and accepts endpoint `ep2`. -/
def envTwoUsers : Env :=
  { rand := fun _ => 0, localDate := fun _ => "2025-01-02",
    toUtc := fun d t _ => (d, t), pushOk := fun e => e == "ep2" }

/-- **C2** (refuted by evaluation — the code violates the failure-isolation
claim): with two users due in the same bucket and the first user's endpoint
failing, `sendPush`'s thrown error escapes `processMinuteBucket` after a
single delivery attempt; the second user is never processed — its record is
unchanged and still unsent — although a direct invocation for that user
would have succeeded with a delivery.  (Missing-subscription and
corrupt-record failures, by contrast, are returned without a throw.) -/
theorem push_failure_aborts_minute_bucket :
    processMinuteBucket envTwoUsers "2025-01-02" "10:00" kvTwoUsers =
      (kvTwoUsers, 1, some .deliveryFailed) ∧
    alookup kvTwoUsers.schedules "u2" = some (.parsed schedDue) ∧
    ("2025-01-02T10:00" : String) ∉ schedDue.sentUtc.getD [] ∧
    processUserForUtcTime envTwoUsers "u2" "2025-01-02T10:00" kvTwoUsers =
      (markSent kvTwoUsers "u2" "2025-01-02T10:00" schedDue, 1, none) := by
  refine ⟨?_, ?_, ?_, ?_⟩ <;> decide

/-! ### C9: schedule record validity -/

/-- The Schedule Record invariant of the data model:
`len(times) = len(utcTimes) = remindersPerDay` and `sentUtc ⊆ utcTimes`. -/
def ValidRec (s : SchedRec) : Prop :=
  s.times.length = s.remindersPerDay ∧
  (s.utcTimes.getD []).length = s.remindersPerDay ∧
  ∀ k ∈ s.sentUtc.getD [], k ∈ s.utcTimes.getD []

theorem generateRandomTimes_ok_length (rand : Nat → Nat) (n : Nat)
    (startTime endTime date : String) (ts : List String)
    (h : generateRandomTimes rand n startTime endTime date = .ok ts) : ts.length = n := by
  unfold generateRandomTimes at h
  cases hp : parseHHMM startTime with
  | none => rw [hp] at h; cases h
  | some p =>
    obtain ⟨sh, sm⟩ := p
    cases hq : parseHHMM endTime with
    | none => rw [hp, hq] at h; cases h
    | some q =>
      obtain ⟨eh, em⟩ := q
      rw [hp, hq] at h
      dsimp only at h
      by_cases hle : eh * 60 + em ≤ sh * 60 + sm
      · rw [if_pos hle] at h
        cases h
      · rw [if_neg hle] at h
        have hts : ts = sortStrings ((randomDraws rand n (sh * 60 + sm) (eh * 60 + em)).map
            formatHHMM) := by
          cases h
          rfl
        rw [hts]
        unfold sortStrings
        rw [(List.perm_insertionSort strLeP _).length_eq]
        simp [randomDraws]

/-- **C9** (Schedule Record validity): a record written by
`buildScheduleForUser` satisfies the invariant and has `sentUtc` reset to
empty, and it is exactly the record persisted under the user's key; a
dispatch invocation either leaves the stored record unchanged or rewrites
it with precisely the current UTC key appended to `sentUtc`, and only
after verifying that this key is a member of `utcTimes` and not yet in
`sentUtc` — so the invariant is preserved. -/
theorem schedule_record_validity :
    (∀ (env : Env) (u : String) (st : Settings) (kv kv' : KV) (prev : Option SchedRec)
      (sched : SchedRec),
      buildScheduleForUser env u st kv prev = .ok (kv', sched) →
      ValidRec sched ∧ sched.sentUtc = some [] ∧
      alookup kv'.schedules u = some (.parsed sched)) ∧
    (∀ (env : Env) (u k : String) (kv : KV) (s s' : SchedRec),
      alookup kv.schedules u = some (.parsed s) →
      alookup (processUserForUtcTime env u k kv).1.schedules u = some (.parsed s') →
      (s' = s ∨ (s' = { s with sentUtc := some (s.sentUtc.getD [] ++ [k]) } ∧
        k ∈ s.utcTimes.getD [] ∧ k ∉ s.sentUtc.getD [])) ∧
      (ValidRec s → ValidRec s')) := by
  constructor
  · intro env u st kv kv' prev sched hbuild
    unfold buildScheduleForUser at hbuild
    dsimp only at hbuild
    cases hgen : generateRandomTimes env.rand st.remindersPerDay st.startTime st.endTime
        (env.localDate st.timezone) with
    | error e =>
      rw [hgen] at hbuild
      cases hbuild
    | ok times =>
      rw [hgen] at hbuild
      dsimp only at hbuild
      have hlen := generateRandomTimes_ok_length _ _ _ _ _ _ hgen
      simp only [Except.ok.injEq, Prod.mk.injEq] at hbuild
      obtain ⟨hkv, hsched⟩ := hbuild
      subst hsched
      subst hkv
      refine ⟨⟨hlen, ?_, ?_⟩, rfl, ?_⟩
      · simp [hlen]
      · intro k hk
        simp at hk
      · rw [addUserToBuckets_schedules]
        exact alookup_aset_self _ _ _
  · intro env u k kv s s' hl hl'
    rcases processUser_cases env u k kv with hsame | ⟨s0, hl0, hmem, hnot, hwrite⟩
    · rw [hsame, hl] at hl'
      have hss : s' = s := by
        injection hl' with h1
        injection h1 with h2
        exact h2.symm
      subst hss
      exact ⟨Or.inl rfl, fun hv => hv⟩
    · rw [hl0] at hl
      have hs0 : s0 = s := by
        simpa using hl
      subst hs0
      rw [hwrite] at hl'
      unfold markSent at hl'
      dsimp only at hl'
      rw [alookup_aset_self] at hl'
      have hs' : s' = { s0 with sentUtc := some (s0.sentUtc.getD [] ++ [k]) } := by
        injection hl' with h1
        injection h1 with h2
        exact h2.symm
      subst hs'
      refine ⟨Or.inr ⟨rfl, hmem, hnot⟩, ?_⟩
      rintro ⟨hv1, hv2, hv3⟩
      refine ⟨hv1, hv2, ?_⟩
      intro x hx
      dsimp only at hx ⊢
      rcases List.mem_append.mp hx with hx' | hx'
      · exact hv3 x hx'
      · rw [List.mem_singleton.mp hx']
        exact hmem

/-! ### C3: bucket symmetry -/

/-- **C3 (amended)** (Bucket symmetry): after `buildScheduleForUser`
completes, the user id is a member of the bucket keyed by every UTC key of
the new schedule's `utcTimes`; after a rebuild over a previous schedule,
the user id is absent from every bucket keyed by a previous UTC key whose
`(date, time)` is not also keyed by some new UTC key; and when the hourly
refresh finds a stale record whose settings are disabled or unrecoverable,
it deletes only the schedule record, leaving every bucket membership in
place. -/
theorem bucket_symmetry_amended :
    (∀ (env : Env) (u : String) (st : Settings) (kv kv' : KV) (prev : Option SchedRec)
      (sched : SchedRec),
      buildScheduleForUser env u st kv prev = .ok (kv', sched) →
      ∀ k ∈ sched.utcTimes.getD [], ∀ d t : String, splitT k = some (d, t) →
        u ∈ bucketMembers kv' d t) ∧
    (∀ (env : Env) (u : String) (st : Settings) (kv kv' : KV) (prev : SchedRec)
      (puts : List String) (sched : SchedRec),
      prev.utcTimes = some puts →
      buildScheduleForUser env u st kv (some prev) = .ok (kv', sched) →
      ∀ k ∈ puts, ∀ d t : String, splitT k = some (d, t) →
        (∀ k' ∈ sched.utcTimes.getD [], splitT k' ≠ some (d, t)) →
        u ∉ bucketMembers kv' d t) ∧
    (∀ (env : Env) (u : String) (kv : KV) (s : SchedRec),
      alookup kv.schedules u = some (.parsed s) →
      ¬s.timezone = "" → s.date ≠ env.localDate s.timezone →
      (∀ st, effectiveSettings kv u s = some st → st.enabled = false) →
      refreshStepCurrent env u kv = .ok { kv with schedules := aerase kv.schedules u } ∧
      ∀ d t : String, bucketMembers { kv with schedules := aerase kv.schedules u } d t =
        bucketMembers kv d t) := by
  refine ⟨?_, ?_, ?_⟩
  · intro env u st kv kv' prev sched hbuild k hk d t hsplit
    unfold buildScheduleForUser at hbuild
    dsimp only at hbuild
    cases hgen : generateRandomTimes env.rand st.remindersPerDay st.startTime st.endTime
        (env.localDate st.timezone) with
    | error e =>
      rw [hgen] at hbuild
      cases hbuild
    | ok times =>
      rw [hgen] at hbuild
      dsimp only at hbuild
      simp only [Except.ok.injEq, Prod.mk.injEq] at hbuild
      obtain ⟨hkv, hsched⟩ := hbuild
      subst hsched
      subst hkv
      dsimp only at hk
      simp only [Option.getD_some] at hk
      exact mem_addUserToBuckets u k d t hsplit _ _ hk
  · intro env u st kv kv' prev puts sched hprev hbuild k hk d t hsplit hnew
    unfold buildScheduleForUser at hbuild
    dsimp only at hbuild
    rw [hprev] at hbuild
    cases hgen : generateRandomTimes env.rand st.remindersPerDay st.startTime st.endTime
        (env.localDate st.timezone) with
    | error e =>
      rw [hgen] at hbuild
      cases hbuild
    | ok times =>
      rw [hgen] at hbuild
      dsimp only at hbuild
      simp only [Except.ok.injEq, Prod.mk.injEq] at hbuild
      obtain ⟨hkv, hsched⟩ := hbuild
      subst hsched
      subst hkv
      dsimp only at hnew
      simp only [Option.getD_some] at hnew
      rw [addUserToBuckets_frame u _ _ d t hnew]
      show u ∉ bucketMembers (removeUserFromBuckets u puts kv) d t
      exact not_mem_removeUserFromBuckets u k d t hsplit puts kv hk
  · intro env u kv s hl htz hdate heff
    refine ⟨?_, fun d t => rfl⟩
    unfold refreshStepCurrent
    rw [hl]
    dsimp only
    rw [if_neg htz, if_neg hdate]
    cases he : effectiveSettings kv u s with
    | none => rfl
    | some st =>
      dsimp only
      have hoff := heff st he
      rw [if_neg (by simp [hoff])]

/-- A stale record (yesterday's date) whose own settings fields are not
fully populated, for a user with no stored Settings entity. -/
def schedStale : SchedRec :=
  { date := "2025-01-01", timezone := "UTC", remindersPerDay := 0,
    startTime := "", endTime := "", times := [],
    utcTimes := some ["2025-01-01T09:00"], sentUtc := some [] }

def kvStale : KV :=
  { schedules := [("u1", .parsed schedStale)], subs := [],
    buckets := [(("2025-01-01", "09:00"), .members ["u1"])], settings := [] }

def envStale : Env :=
  { rand := fun _ => 0, localDate := fun _ => "2025-01-02",
    toUtc := fun d t _ => (d, t), pushOk := fun _ => true }

/-- **C3 (counterexample)**: the Refresh Engine's delete path removes only
the schedule record — here the deleted record's `utcTimes` named the bucket
`(2025-01-01, 09:00)`, and after the refresh step the user is still a
member of that bucket, contradicting the claimed absence from every bucket
keyed by the previous schedule's `utcTimes` after deletion. -/
theorem refresh_disable_leaves_bucket_membership :
    refreshStepCurrent envStale "u1" kvStale =
      .ok { kvStale with schedules := aerase kvStale.schedules "u1" } ∧
    alookup (aerase kvStale.schedules "u1") "u1" = none ∧
    ("2025-01-01T09:00" : String) ∈ schedStale.utcTimes.getD [] ∧
    splitT "2025-01-01T09:00" = some ("2025-01-01", "09:00") ∧
    "u1" ∈ bucketMembers { kvStale with schedules := aerase kvStale.schedules "u1" }
      "2025-01-01" "09:00" :=
  ⟨rfl, by decide, by decide, by decide, by decide⟩

/-! ### Concrete witnesses for the dispatch and refresh theorems -/

def kvOne : KV :=
  { schedules := [("u1", .parsed schedDue)], subs := [("u1", .endpoint "ep2")],
    buckets := [(("2025-01-02", "10:00"), .members ["u1"])], settings := [] }

/-- Witness for C1: one due user whose push succeeds; the first invocation
delivers and appends, the second is a no-op. -/
theorem dispatch_idempotence_witness :
    processUserForUtcTime envTwoUsers "u1" "2025-01-02T10:00" kvOne =
      (markSent kvOne "u1" "2025-01-02T10:00" schedDue, 1, none) ∧
    processUserForUtcTime envTwoUsers "u1" "2025-01-02T10:00"
        (markSent kvOne "u1" "2025-01-02T10:00" schedDue) =
      (markSent kvOne "u1" "2025-01-02T10:00" schedDue, 0, none) :=
  dispatch_idempotence.2 envTwoUsers "u1" "2025-01-02T10:00" kvOne schedDue
    ["2025-01-02T10:00"] "ep2" (by decide) (by decide) (by decide) (by decide)
    (by decide) (by decide) (by decide) (by decide)

def schedNoTz : SchedRec :=
  { date := "2025-01-02", timezone := "", remindersPerDay := 1,
    startTime := "09:00", endTime := "10:00", times := ["10:00"],
    utcTimes := some ["2025-01-02T10:00"], sentUtc := some [] }

def kvNoTz : KV :=
  { schedules := [("u3", .parsed schedNoTz)], subs := [], buckets := [], settings := [] }

/-- Witness for C10: a record with an empty timezone is skipped unchanged
by both engines. -/
theorem missing_timezone_skip_witness :
    processUserForUtcTime envTwoUsers "u3" "2025-01-02T10:00" kvNoTz = (kvNoTz, 0, none) ∧
    refreshStepCurrent envTwoUsers "u3" kvNoTz = .ok kvNoTz :=
  ⟨missing_timezone_skip.1 envTwoUsers "u3" "2025-01-02T10:00" kvNoTz schedNoTz
      (by decide) (by decide),
    missing_timezone_skip.2 envTwoUsers "u3" kvNoTz schedNoTz (by decide) (by decide)⟩

def settingsOn : Settings :=
  { enabled := true, remindersPerDay := 1, startTime := "09:00", endTime := "10:00",
    timezone := "UTC" }

def kvEmpty : KV := { schedules := [], subs := [], buckets := [], settings := [] }

def schedBuiltW : SchedRec :=
  { date := "2025-01-02", timezone := "UTC", remindersPerDay := 1,
    startTime := "09:00", endTime := "10:00", times := ["09:00"],
    utcTimes := some ["2025-01-02T09:00"], sentUtc := some [] }

def kvBuiltW : KV :=
  { schedules := [("u4", .parsed schedBuiltW)], subs := [],
    buckets := [(("2025-01-02", "09:00"), .members ["u4"])], settings := [] }

/-- Witness for C9: a concrete build persists the returned record with
`sentUtc` reset to empty. -/
theorem schedule_record_validity_witness :
    alookup kvBuiltW.schedules "u4" = some (.parsed schedBuiltW) ∧
    schedBuiltW.sentUtc = some [] :=
  ⟨(schedule_record_validity.1 envTwoUsers "u4" settingsOn kvEmpty kvBuiltW none
      schedBuiltW rfl).2.2,
    (schedule_record_validity.1 envTwoUsers "u4" settingsOn kvEmpty kvBuiltW none
      schedBuiltW rfl).2.1⟩

def settingsOff : Settings :=
  { enabled := false, remindersPerDay := 1, startTime := "09:00", endTime := "10:00",
    timezone := "UTC" }

def kvStaleOff : KV :=
  { schedules := [("u5", .parsed schedStale)], subs := [],
    buckets := [(("2025-01-01", "09:00"), .members ["u5"])],
    settings := [("u5", .val settingsOff)] }

/-- Witness for the amended C3 at the refresh delete path: stored settings
exist but are disabled, so the stale record is deleted (schedules erased,
buckets untouched). -/
theorem bucket_symmetry_amended_witness :
    refreshStepCurrent envStale "u5" kvStaleOff =
      .ok { kvStaleOff with schedules := aerase kvStaleOff.schedules "u5" } :=
  (bucket_symmetry_amended.2.2 envStale "u5" kvStaleOff schedStale (by decide) (by decide)
    (by decide)
    (fun st h => by
      rw [show effectiveSettings kvStaleOff "u5" schedStale = some settingsOff from rfl] at h
      injection h with hh
      rw [← hh]
      rfl)).1

/-! ### Base64url (`base64UrlEncode` / `base64UrlDecode`, lines 605-628)

`btoa` followed by the `+/=` substitutions yields the base64url alphabet
with no padding; the final quantum of one byte yields two characters and a
quantum of two bytes yields three.  Bytes are `Nat`s below 256. -/

def b64Alphabet : List Char :=
  "ABCDEFGHIJKLMNOPQRSTUVWXYZabcdefghijklmnopqrstuvwxyz0123456789-_".data

def b64Char (k : Nat) : Char := b64Alphabet.getD k 'A'

def b64Value (c : Char) : Nat := b64Alphabet.indexOf c

def base64UrlEncodeBytes : List Nat → List Char
  | a :: b :: c :: rest =>
    b64Char (a / 4) :: b64Char (a % 4 * 16 + b / 16) :: b64Char (b % 16 * 4 + c / 64) ::
      b64Char (c % 64) :: base64UrlEncodeBytes rest
  | [a, b] => [b64Char (a / 4), b64Char (a % 4 * 16 + b / 16), b64Char (b % 16 * 4)]
  | [a] => [b64Char (a / 4), b64Char (a % 4 * 16)]
  | [] => []

def base64UrlDecodeChars : List Char → List Nat
  | c1 :: c2 :: c3 :: c4 :: rest =>
    (b64Value c1 * 4 + b64Value c2 / 16) :: (b64Value c2 % 16 * 16 + b64Value c3 / 4) ::
      (b64Value c3 % 4 * 64 + b64Value c4) :: base64UrlDecodeChars rest
  | [c1, c2, c3] =>
    [b64Value c1 * 4 + b64Value c2 / 16, b64Value c2 % 16 * 16 + b64Value c3 / 4]
  | [c1, c2] => [b64Value c1 * 4 + b64Value c2 / 16]
  | _ => []

theorem b64Value_b64Char : ∀ k < 64, b64Value (b64Char k) = k := by decide

theorem b64Char_mem : ∀ k < 64, b64Char k ∈ b64Alphabet := by decide

theorem dot_not_mem_b64Alphabet : '.' ∉ b64Alphabet := by decide

theorem pad_not_mem_b64Alphabet : '=' ∉ b64Alphabet := by decide

theorem b64_roundtrip : ∀ (l : List Nat), (∀ x ∈ l, x < 256) →
    base64UrlDecodeChars (base64UrlEncodeBytes l) = l
  | [], _ => rfl
  | [a], h => by
    have ha : a < 256 := h a (by simp)
    simp only [base64UrlEncodeBytes, base64UrlDecodeChars]
    rw [b64Value_b64Char (a / 4) (by omega), b64Value_b64Char (a % 4 * 16) (by omega)]
    have e1 : a / 4 * 4 + a % 4 * 16 / 16 = a := by omega
    rw [e1]
  | [a, b], h => by
    have ha : a < 256 := h a (by simp)
    have hb : b < 256 := h b (by simp)
    simp only [base64UrlEncodeBytes, base64UrlDecodeChars]
    rw [b64Value_b64Char (a / 4) (by omega), b64Value_b64Char (a % 4 * 16 + b / 16) (by omega),
      b64Value_b64Char (b % 16 * 4) (by omega)]
    have e1 : a / 4 * 4 + (a % 4 * 16 + b / 16) / 16 = a := by omega
    have e2 : (a % 4 * 16 + b / 16) % 16 * 16 + b % 16 * 4 / 4 = b := by omega
    rw [e1, e2]
  | a :: b :: c :: rest, h => by
    have ha : a < 256 := h a (by simp)
    have hb : b < 256 := h b (by simp)
    have hc : c < 256 := h c (by simp)
    have hrest : ∀ x ∈ rest, x < 256 := fun x hx => h x (by simp [hx])
    simp only [base64UrlEncodeBytes, base64UrlDecodeChars]
    rw [b64Value_b64Char (a / 4) (by omega), b64Value_b64Char (a % 4 * 16 + b / 16) (by omega),
      b64Value_b64Char (b % 16 * 4 + c / 64) (by omega), b64Value_b64Char (c % 64) (by omega)]
    rw [b64_roundtrip rest hrest]
    have e1 : a / 4 * 4 + (a % 4 * 16 + b / 16) / 16 = a := by omega
    have e2 : (a % 4 * 16 + b / 16) % 16 * 16 + (b % 16 * 4 + c / 64) / 4 = b := by omega
    have e3 : (b % 16 * 4 + c / 64) % 4 * 64 + c % 64 = c := by omega
    rw [e1, e2, e3]

theorem b64_encode_mem_alphabet : ∀ (l : List Nat), (∀ x ∈ l, x < 256) →
    ∀ c ∈ base64UrlEncodeBytes l, c ∈ b64Alphabet
  | [], _ => by simp [base64UrlEncodeBytes]
  | [a], h => by
    have ha : a < 256 := h a (by simp)
    intro c hc
    simp only [base64UrlEncodeBytes, List.mem_cons, List.not_mem_nil, or_false] at hc
    rcases hc with rfl | rfl
    · exact b64Char_mem _ (by omega)
    · exact b64Char_mem _ (by omega)
  | [a, b], h => by
    have ha : a < 256 := h a (by simp)
    have hb : b < 256 := h b (by simp)
    intro c hc
    simp only [base64UrlEncodeBytes, List.mem_cons, List.not_mem_nil, or_false] at hc
    rcases hc with rfl | rfl | rfl
    · exact b64Char_mem _ (by omega)
    · exact b64Char_mem _ (by omega)
    · exact b64Char_mem _ (by omega)
  | a :: b :: c0 :: rest, h => by
    have ha : a < 256 := h a (by simp)
    have hb : b < 256 := h b (by simp)
    have hc0 : c0 < 256 := h c0 (by simp)
    have hrest : ∀ x ∈ rest, x < 256 := fun x hx => h x (by simp [hx])
    intro c hc
    simp only [base64UrlEncodeBytes, List.mem_cons] at hc
    rcases hc with rfl | rfl | rfl | rfl | hc'
    · exact b64Char_mem _ (by omega)
    · exact b64Char_mem _ (by omega)
    · exact b64Char_mem _ (by omega)
    · exact b64Char_mem _ (by omega)
    · exact b64_encode_mem_alphabet rest hrest c hc'

/-! ### UTF-8 bytes (`TextEncoder().encode`) -/

def utf8Char (n : Nat) : List Nat :=
  if n < 128 then [n]
  else if n < 2048 then [192 + n / 64, 128 + n % 64]
  else if n < 65536 then [224 + n / 4096, 128 + n / 64 % 64, 128 + n % 64]
  else [240 + n / 262144, 128 + n / 4096 % 64, 128 + n / 64 % 64, 128 + n % 64]

def strBytes (s : String) : List Nat :=
  s.data.foldr (fun c acc => utf8Char c.toNat ++ acc) []

theorem char_toNat_lt (c : Char) : c.toNat < 1114112 := by
  rcases c.valid with h | ⟨h1, h2⟩
  · exact lt_trans h (by norm_num)
  · exact h2

theorem utf8Char_lt (n : Nat) (hn : n < 1114112) : ∀ x ∈ utf8Char n, x < 256 := by
  unfold utf8Char
  by_cases h1 : n < 128
  · rw [if_pos h1]
    intro x hx
    simp at hx
    omega
  · rw [if_neg h1]
    by_cases h2 : n < 2048
    · rw [if_pos h2]
      intro x hx
      simp at hx
      rcases hx with rfl | rfl <;> omega
    · rw [if_neg h2]
      by_cases h3 : n < 65536
      · rw [if_pos h3]
        intro x hx
        simp at hx
        rcases hx with rfl | rfl | rfl <;> omega
      · rw [if_neg h3]
        intro x hx
        simp at hx
        rcases hx with rfl | rfl | rfl | rfl <;> omega

theorem strBytes_lt (s : String) : ∀ x ∈ strBytes s, x < 256 := by
  unfold strBytes
  induction s.data with
  | nil => simp
  | cons c cs ih =>
    intro x hx
    simp only [List.foldr_cons, List.mem_append] at hx
    rcases hx with hx' | hx'
    · exact utf8Char_lt c.toNat (char_toNat_lt c) x hx'
    · exact ih x hx'

/-! ### Signature normalization (`derToRaw`, lines 560-580) -/

/-- The placement of one INTEGER field into its 32-byte half of the raw
buffer: `raw.set(r.length > 32 ? r.slice(-32) : r, 32 - min(r.length, 32))`
over a zero-initialized buffer — keep the last 32 bytes of a long value,
left-pad a short one with zeros. -/
def leftPad32 (l : List Nat) : List Nat :=
  if l.length > 32 then l.drop (l.length - 32) else List.replicate (32 - l.length) 0 ++ l

/-- `derToRaw`: a 64-byte signature is taken as already raw (the
length-sniffing branch at line 562); otherwise the two INTEGER fields are
parsed out of the DER SEQUENCE (`rLen = der[3]`, `r = der[4..4+rLen]`,
`sLen = der[5+rLen]`, `s = der[6+rLen..6+rLen+sLen]`) and each is
normalized to exactly 32 bytes. -/
def derToRaw (der : List Nat) : List Nat :=
  if der.length = 64 then der
  else
    let rLen := der.getD 3 0
    let r := (der.drop 4).take rLen
    let sLen := der.getD (5 + rLen) 0
    let s := (der.drop (6 + rLen)).take sLen
    leftPad32 r ++ leftPad32 s

/-- A DER `SEQUENCE{INTEGER r, INTEGER s}` with single-byte lengths, as
produced by an ECDSA/P-256 signer (field lengths at most 33 bytes). -/
def derSig (r s : List Nat) : List Nat :=
  0x30 :: (r.length + s.length + 4) :: 0x02 :: r.length :: (r ++ 0x02 :: s.length :: s)

theorem leftPad32_length (l : List Nat) : (leftPad32 l).length = 32 := by
  unfold leftPad32
  by_cases h : l.length > 32
  · rw [if_pos h]
    simp
    omega
  · rw [if_neg h]
    simp
    omega

theorem derToRaw_derSig (r s : List Nat) (hne : (derSig r s).length ≠ 64) :
    derToRaw (derSig r s) = leftPad32 r ++ leftPad32 s := by
  unfold derToRaw
  rw [if_neg hne]
  dsimp only
  have h3 : (derSig r s).getD 3 0 = r.length := rfl
  have h4 : (derSig r s).drop 4 = r ++ 0x02 :: s.length :: s := rfl
  rw [h3, h4]
  have hsplit : derSig r s =
      ([0x30, r.length + s.length + 4, 0x02, r.length] ++ r) ++ (0x02 :: s.length :: s) := by
    simp [derSig]
  have hslen : (derSig r s).getD (5 + r.length) 0 = s.length := by
    rw [hsplit, List.getD_append_right _ _ _ _ (by simp; omega)]
    have hidx : 5 + r.length - ([0x30, r.length + s.length + 4, 0x02, r.length] ++ r).length
        = 1 := by
      simp
      omega
    rw [hidx]
    rfl
  rw [hslen]
  have hsdrop : (derSig r s).drop (6 + r.length) = s := by
    have hsplit2 : derSig r s =
        (([0x30, r.length + s.length + 4, 0x02, r.length] ++ r) ++ [0x02, s.length]) ++ s := by
      simp [derSig]
    rw [hsplit2]
    have hlen2 : (([0x30, r.length + s.length + 4, 0x02, r.length] ++ r) ++ [0x02,
        s.length]).length = 6 + r.length := by
      simp
      omega
    rw [← hlen2, List.drop_left]
  rw [hsdrop, List.take_left, List.take_length]

theorem derToRaw_lt (der : List Nat) (h : ∀ x ∈ der, x < 256) :
    ∀ x ∈ derToRaw der, x < 256 := by
  unfold derToRaw
  by_cases h64 : der.length = 64
  · rw [if_pos h64]
    exact h
  · rw [if_neg h64]
    dsimp only
    intro x hx
    have hpad : ∀ l : List Nat, (∀ y ∈ l, y < 256) → ∀ y ∈ leftPad32 l, y < 256 := by
      intro l hl y hy
      unfold leftPad32 at hy
      by_cases hll : l.length > 32
      · rw [if_pos hll] at hy
        exact hl y (List.drop_subset _ _ hy)
      · rw [if_neg hll] at hy
        rcases List.mem_append.mp hy with hy' | hy'
        · rw [List.eq_of_mem_replicate hy']
          omega
        · exact hl y hy'
    have hr : ∀ y ∈ (der.drop 4).take (der.getD 3 0), y < 256 :=
      fun y hy => h y (List.drop_subset _ _ (List.take_subset _ _ hy))
    have hs : ∀ y ∈ (der.drop (6 + der.getD 3 0)).take (der.getD (5 + der.getD 3 0) 0),
        y < 256 :=
      fun y hy => h y (List.drop_subset _ _ (List.take_subset _ _ hy))
    rcases List.mem_append.mp hx with hx' | hx'
    · exact hpad _ hr x hx'
    · exact hpad _ hs x hx'

/-! ### VAPID token assembly (`sendPush` / `createVapidJwt`, lines 463-555) -/

structure VapidPayload where
  aud : String
  exp : Nat
  sub : String
deriving DecidableEq

/-- `JSON.stringify({aud, exp, sub})`, for field strings that need no JSON
escaping (URL audiences and contact URIs contain no quote or backslash). -/
def jsonVapidPayload (p : VapidPayload) : String :=
  "\x7b\"aud\":\"" ++ p.aud ++ "\",\"exp\":" ++ toString p.exp ++ ",\"sub\":\"" ++
    p.sub ++ "\"\x7d"

/-- `JSON.stringify({alg: 'ES256', typ: 'JWT'})`. -/
def vapidHeaderJson : String := "\x7b\"alg\":\"ES256\",\"typ\":\"JWT\"\x7d"

/-- `createVapidJwt`: base64url-encode header and payload, dot-join, sign
(the ECDSA signature produced by `crypto.subtle.sign` is the oracle
`sigBytes`), normalize the signature with `derToRaw`, and append its
base64url encoding as the third dot-joined segment. -/
def createVapidJwt (headerJson payloadJson : String) (sigBytes : List Nat) : String :=
  String.mk (base64UrlEncodeBytes (strBytes headerJson)) ++ "." ++
    String.mk (base64UrlEncodeBytes (strBytes payloadJson)) ++ "." ++
    String.mk (base64UrlEncodeBytes (derToRaw sigBytes))

/-- The parse of the subscription endpoint by `new URL(endpoint)`:
`protocol` carries the trailing colon, exactly as `url.protocol` does. -/
structure UrlParts where
  protocol : String
  host : String
deriving DecidableEq

/-- `` `${url.protocol}//${url.host}` `` (line 468). -/
def vapidAudience (u : UrlParts) : String := u.protocol ++ "//" ++ u.host

/-- The payload built by `sendPush` (lines 470-475): the audience from the
endpoint URL and an expiry 12 hours after the signing time (seconds). -/
def vapidPayloadAt (u : UrlParts) (nowSec : Nat) (subj : String) : VapidPayload :=
  { aud := vapidAudience u, exp := nowSec + 12 * 60 * 60, sub := subj }

def vapidToken (u : UrlParts) (nowSec : Nat) (subj : String) (sigBytes : List Nat) : String :=
  createVapidJwt vapidHeaderJson (jsonVapidPayload (vapidPayloadAt u nowSec subj)) sigBytes

theorem data_append (a b : String) : (a ++ b).data = a.data ++ b.data := rfl

theorem str_ext {s t : String} (h : s.data = t.data) : s = t := by
  cases s
  cases t
  cases h
  rfl

/-- **C7** (VAPID token shape): for every endpoint (`scheme://host`),
signing time and signature bytes, the produced token splits on dots into
exactly three segments — header, payload, signature — whose characters all
come from the base64url alphabet with no `=` padding; base64url-decoding
the payload segment yields exactly the UTF-8 bytes of the payload JSON,
whose `aud` field is exactly `scheme://host` of the endpoint passed in and
whose `exp` field is exactly the signing time plus 12 hours
(43200 seconds). -/
theorem vapid_token_shape (scheme host subj : String) (nowSec : Nat) (sigBytes : List Nat)
    (hsig : ∀ x ∈ sigBytes, x < 256) :
    splitOnChar '.' (vapidToken ⟨scheme ++ ":", host⟩ nowSec subj sigBytes).data =
      [base64UrlEncodeBytes (strBytes vapidHeaderJson),
        base64UrlEncodeBytes (strBytes (jsonVapidPayload
          (vapidPayloadAt ⟨scheme ++ ":", host⟩ nowSec subj))),
        base64UrlEncodeBytes (derToRaw sigBytes)] ∧
    (∀ seg ∈ splitOnChar '.' (vapidToken ⟨scheme ++ ":", host⟩ nowSec subj sigBytes).data,
      ∀ c ∈ seg, c ∈ b64Alphabet ∧ c ≠ '=') ∧
    base64UrlDecodeChars (base64UrlEncodeBytes (strBytes (jsonVapidPayload
        (vapidPayloadAt ⟨scheme ++ ":", host⟩ nowSec subj)))) =
      strBytes (jsonVapidPayload (vapidPayloadAt ⟨scheme ++ ":", host⟩ nowSec subj)) ∧
    (vapidPayloadAt ⟨scheme ++ ":", host⟩ nowSec subj).aud = scheme ++ "://" ++ host ∧
    (vapidPayloadAt ⟨scheme ++ ":", host⟩ nowSec subj).exp = nowSec + 43200 := by
  have hH : ∀ c ∈ base64UrlEncodeBytes (strBytes vapidHeaderJson), c ∈ b64Alphabet :=
    b64_encode_mem_alphabet _ (strBytes_lt _)
  have hP : ∀ c ∈ base64UrlEncodeBytes (strBytes (jsonVapidPayload
      (vapidPayloadAt ⟨scheme ++ ":", host⟩ nowSec subj))), c ∈ b64Alphabet :=
    b64_encode_mem_alphabet _ (strBytes_lt _)
  have hS : ∀ c ∈ base64UrlEncodeBytes (derToRaw sigBytes), c ∈ b64Alphabet :=
    b64_encode_mem_alphabet _ (derToRaw_lt _ hsig)
  have hdotH : '.' ∉ base64UrlEncodeBytes (strBytes vapidHeaderJson) :=
    fun hc => dot_not_mem_b64Alphabet (hH '.' hc)
  have hdotP : '.' ∉ base64UrlEncodeBytes (strBytes (jsonVapidPayload
      (vapidPayloadAt ⟨scheme ++ ":", host⟩ nowSec subj))) :=
    fun hc => dot_not_mem_b64Alphabet (hP '.' hc)
  have hdotS : '.' ∉ base64UrlEncodeBytes (derToRaw sigBytes) :=
    fun hc => dot_not_mem_b64Alphabet (hS '.' hc)
  have hdot : ("." : String).data = ['.'] := rfl
  have hdata : (vapidToken ⟨scheme ++ ":", host⟩ nowSec subj sigBytes).data =
      base64UrlEncodeBytes (strBytes vapidHeaderJson) ++ '.' ::
        (base64UrlEncodeBytes (strBytes (jsonVapidPayload
          (vapidPayloadAt ⟨scheme ++ ":", host⟩ nowSec subj))) ++ '.' ::
          base64UrlEncodeBytes (derToRaw sigBytes)) := by
    simp only [vapidToken, createVapidJwt, data_append, data_mk, hdot, List.append_assoc,
      List.singleton_append, List.cons_append, List.nil_append]
  have hsplit : splitOnChar '.'
      (vapidToken ⟨scheme ++ ":", host⟩ nowSec subj sigBytes).data =
      [base64UrlEncodeBytes (strBytes vapidHeaderJson),
        base64UrlEncodeBytes (strBytes (jsonVapidPayload
          (vapidPayloadAt ⟨scheme ++ ":", host⟩ nowSec subj))),
        base64UrlEncodeBytes (derToRaw sigBytes)] := by
    rw [hdata]
    exact splitOnChar_three '.' _ _ _ hdotH hdotP hdotS
  refine ⟨hsplit, ?_, b64_roundtrip _ (strBytes_lt _), ?_, ?_⟩
  · intro seg hseg c hc
    rw [hsplit] at hseg
    simp only [List.mem_cons, List.not_mem_nil, or_false] at hseg
    rcases hseg with rfl | rfl | rfl
    · exact ⟨hH c hc, fun he => pad_not_mem_b64Alphabet (he ▸ hH c hc)⟩
    · exact ⟨hP c hc, fun he => pad_not_mem_b64Alphabet (he ▸ hP c hc)⟩
    · exact ⟨hS c hc, fun he => pad_not_mem_b64Alphabet (he ▸ hS c hc)⟩
  · show (scheme ++ ":") ++ "//" ++ host = scheme ++ "://" ++ host
    apply str_ext
    have h1 : (":" : String).data = [':'] := rfl
    have h2 : ("//" : String).data = ['/', '/'] := rfl
    have h3 : ("://" : String).data = [':', '/', '/'] := rfl
    simp [data_append, h1, h2, h3]
  · show nowSec + 12 * 60 * 60 = nowSec + 43200
    omega

/-- Witness for C7 at a concrete endpoint, signing time and 64-byte raw
signature: the token splits into the three expected base64url segments. -/
theorem vapid_token_shape_witness :
    splitOnChar '.'
      (vapidToken ⟨"https" ++ ":", "push.example.org"⟩ 1700000000 "mailto:admin@example.org"
        (List.replicate 64 7)).data =
      [base64UrlEncodeBytes (strBytes vapidHeaderJson),
        base64UrlEncodeBytes (strBytes (jsonVapidPayload
          (vapidPayloadAt ⟨"https" ++ ":", "push.example.org"⟩ 1700000000
            "mailto:admin@example.org"))),
        base64UrlEncodeBytes (derToRaw (List.replicate 64 7))] :=
  (vapid_token_shape "https" "push.example.org" "mailto:admin@example.org" 1700000000
    (List.replicate 64 7) (by decide)).1

/-- **C8 (counterexample)**: a well-formed DER signature whose total
encoding happens to be exactly 64 bytes (two 29-byte INTEGER fields) is
misclassified by the length-sniffing branch and passed through unchanged,
instead of having its INTEGER fields extracted and normalized as the claim
asserts for every DER input. -/
theorem derToRaw_der64_passthrough :
    (derSig (List.replicate 29 1) (List.replicate 29 2)).length = 64 ∧
    derToRaw (derSig (List.replicate 29 1) (List.replicate 29 2)) =
      derSig (List.replicate 29 1) (List.replicate 29 2) ∧
    derToRaw (derSig (List.replicate 29 1) (List.replicate 29 2)) ≠
      leftPad32 (List.replicate 29 1) ++ leftPad32 (List.replicate 29 2) :=
  ⟨by decide, by decide, by decide⟩

/-- **C8 (amended)** (Signature normalization): the normalization step
passes a 64-byte input through unchanged; for a DER `SEQUENCE` of two
INTEGERs whose total encoding is not 64 bytes it extracts the `r` and `s`
fields and normalizes each to exactly 32 bytes (left-padding short values
with zeros, keeping the last 32 bytes of long values); its output is
exactly 64 bytes on both of these input classes.  (A DER signature whose
total encoding is exactly 64 bytes is misclassified as raw and passed
through — the length-sniffing limitation.) -/
theorem derToRaw_normalization_amended :
    (∀ der : List Nat, der.length = 64 → derToRaw der = der) ∧
    (∀ r s : List Nat, (derSig r s).length ≠ 64 →
      derToRaw (derSig r s) = leftPad32 r ++ leftPad32 s) ∧
    (∀ l : List Nat, (leftPad32 l).length = 32) ∧
    (∀ der : List Nat, der.length = 64 → (derToRaw der).length = 64) ∧
    (∀ r s : List Nat, (derToRaw (derSig r s)).length = 64) := by
  have hpass : ∀ der : List Nat, der.length = 64 → derToRaw der = der := by
    intro der h
    unfold derToRaw
    rw [if_pos h]
  refine ⟨hpass, derToRaw_derSig, leftPad32_length, ?_, ?_⟩
  · intro der h
    rw [hpass der h]
    exact h
  · intro r s
    by_cases h64 : (derSig r s).length = 64
    · rw [hpass _ h64]
      exact h64
    · rw [derToRaw_derSig r s h64]
      simp [leftPad32_length]

/-- Witness for the amended C8: a DER signature with a 1-byte `r` and a
33-byte `s` (leading zero) is normalized to left-padded and
right-truncated 32-byte halves. -/
theorem derToRaw_normalization_amended_witness :
    derToRaw (derSig (List.replicate 1 5) (List.replicate 33 6)) =
      leftPad32 (List.replicate 1 5) ++ leftPad32 (List.replicate 33 6) :=
  derToRaw_normalization_amended.2.1 (List.replicate 1 5) (List.replicate 33 6) (by decide)

end GratitudeWorker
